import Mathlib

/-!
# Verification of the magnus integer / array binding layer

A shallow embedding of `src/integer.rs` and `src/r_array.rs` from the
magnus Ruby-binding crate, together with models of the pieces of the
crate (`value.rs`, `r_bignum.rs`, `error.rs`) and of the foreign Ruby
runtime primitives (`rb_ll2inum`, `rb_big_plus`, `rb_big_norm`,
`rb_to_int`, the copy-on-write array machinery) that the embedded code
calls.  Machine integers are modelled as `Int` with explicit range
checks where the Rust code uses checked or potentially trapping
`i64` arithmetic.
-/

namespace Magnus

/-! ## Machine-word ranges -/

/-- Smallest value of a signed 64-bit machine integer. -/
def i64Min : Int := -(2 ^ 63)

/-- Largest value of a signed 64-bit machine integer. -/
def i64Max : Int := 2 ^ 63 - 1

/-- Modelled from the spec: smallest value of the immediate (Fixnum)
encoding — the 62-bit immediate boundary pinned in §8 of the spec
(`value.rs`, which defines `Fixnum`, is not part of the sources). -/
def fixnumMin : Int := -(2 ^ 62)

/-- Modelled from the spec: largest value of the immediate (Fixnum)
encoding (62-bit immediate boundary, spec §8). -/
def fixnumMax : Int := 2 ^ 62 - 1

/-- Does `n` fit the immediate (Fixnum) range? -/
def fixnumFits (n : Int) : Bool :=
  decide (fixnumMin ≤ n) && decide (n ≤ fixnumMax)

/-- Rust `i64::checked_add`: the mathematical sum when it fits a signed
64-bit word, `none` on overflow. -/
def checked_add (a b : Int) : Option Int :=
  if i64Min ≤ a + b ∧ a + b ≤ i64Max then some (a + b) else none

/-- Rust `i64::checked_sub`: the mathematical difference when it fits a
signed 64-bit word, `none` on overflow. -/
def checked_sub (a b : Int) : Option Int :=
  if i64Min ≤ a - b ∧ a - b ≤ i64Max then some (a - b) else none

/-! ## The dual-representation `Integer`

`Integer` in `integer.rs` wraps a tagged machine word that is either a
`Fixnum` (immediate: low bit set, word `2·n + 1`) or a pointer to a heap
`RBignum`.  `integer_type` discriminates by testing the `RUBY_FIXNUM_FLAG`
low bit; in the embedding the two constructors carry the decoded
mathematical value and correspond exactly to the two outcomes of that
bit test, so the discriminator is the constructor match itself. -/

/-- The `IntegerType` classification from `integer.rs`: `fixnum n` is a
value in the immediate representation (for valid handles
`fixnumMin ≤ n ≤ fixnumMax`), `bignum n` a heap big-integer with
mathematical value `n`. -/
inductive Integer where
  | fixnum (n : Int)
  | bignum (n : Int)
  deriving DecidableEq, Repr

/-- The mathematical value an `Integer` denotes. -/
def Integer.val : Integer → Int
  | .fixnum n => n
  | .bignum n => n

/-- `Integer::integer_type`'s fixnum test (`val & RUBY_FIXNUM_FLAG != 0`):
true exactly on the immediate representation. -/
def Integer.isFixnum : Integer → Bool
  | .fixnum _ => true
  | .bignum _ => false

/-- Modelled from the spec: the raw tagged machine word of a `Fixnum`
with value `n`, reinterpreted as a signed 64-bit integer.  The
immediate encoding is `n ↦ 2·n + 1` (value shifted left one bit with
the flag bit set); for `n` in the fixnum range the word is in `i64`
range, so the `as i64` reinterpretation is this same integer. -/
def fixnumRaw (n : Int) : Int := 2 * n + 1

/-- `Integer::from_rb_value_unchecked` applied to a tagged word (given
as the signed 64-bit integer `w`): every call site in the embedded fast
paths passes an odd word, which decodes to the immediate with value
`(w - 1) / 2`. -/
def fromTaggedI64 (w : Int) : Integer := .fixnum ((w - 1) / 2)

/-- Canonical encoding of a mathematical integer as a foreign value:
immediate when it fits the fixnum range, heap big-integer otherwise. -/
def normEncode (n : Int) : Integer :=
  if fixnumFits n then .fixnum n else .bignum n

/-- Modelled from the spec: the foreign primitive `rb_ll2inum` (Ruby C
API, outside the repository) — encodes a native signed 64-bit integer
as a foreign integer, immediate when it fits, heap big-integer
otherwise. -/
def rb_ll2inum (n : Int) : Integer := normEncode n

/-- Modelled from the spec: the foreign primitive `rb_big_norm` —
demotes a heap big-integer that fits the immediate range to the
immediate form, returns it unchanged otherwise (spec §4.3 Normalize). -/
def rb_big_norm (n : Int) : Integer := normEncode n

/-- Modelled from the spec: the foreign big-integer addition primitive
`rb_big_plus` — arbitrary-precision sum of the two operands' values,
returned in canonical (normalized) encoding. -/
def rb_big_plus (a b : Int) : Integer := normEncode (a + b)

/-- Modelled from the spec: `Fixnum::from_i64_impl` (from `value.rs`,
not part of the sources) — `some n` when `n` fits the immediate
encoding, `none` otherwise. -/
def from_i64_impl (n : Int) : Option Int :=
  if fixnumFits n then some n else none

/-- `Ruby::integer_from_i64` (`integer.rs` lines 58–67): try the
immediate encoding first, fall back to the foreign `rb_ll2inum`. -/
def integer_from_i64 (n : Int) : Integer :=
  match from_i64_impl n with
  | some f => .fixnum f
  | none => rb_ll2inum n

/-! ## Errors

`error.rs` is not part of the sources; the error type is modelled from
spec §7: a native error either wraps a propagated foreign exception or
a locally synthesized exception-class-plus-message pair. -/

/-- A foreign (Ruby) exception object, as far as the embedded code
distinguishes them. -/
inductive RubyException where
  | typeError (msg : String)
  | custom (id : Nat)
  deriving DecidableEq, Repr

/-- Modelled from the spec (§7): the native `Error` type from
`error.rs` — a propagated foreign exception, or a synthesized
class-plus-message pair (here: the `RangeError` class used by the
integer conversions). -/
inductive Error where
  | exception (e : RubyException)
  | rangeError (msg : String)
  deriving DecidableEq, Repr

/-- Modelled from the spec (§5): the protect boundary from `error.rs` —
runs a foreign computation and converts a foreign raise into a native
`Error.exception`. -/
def protect {α : Type} (c : Except RubyException α) : Except Error α :=
  match c with
  | .ok a => .ok a
  | .error e => .error (.exception e)

/-- Modelled from the spec: `RBignum::to_i64` (from `r_bignum.rs`, not
part of the sources) — the value when it fits a signed 64-bit word,
a synthesized `RangeError` otherwise (spec §7 RangeError). -/
def rbignum_to_i64 (n : Int) : Except Error Int :=
  if i64Min ≤ n ∧ n ≤ i64Max then .ok n
  else .error (.rangeError "bignum too big to convert into `i64`")

/-- `Integer::to_i64` (`integer.rs` lines 318–324): a `Fixnum` decodes
infallibly, a `Bignum` goes through the fallible big-integer read. -/
def Integer.to_i64 : Integer → Except Error Int
  | .fixnum n => .ok n
  | .bignum n => rbignum_to_i64 n

/-- `Integer::norm` (`integer.rs` lines 486–497): a `Fixnum` is
returned as is, a `Bignum` is passed to the foreign `rb_big_norm`. -/
def Integer.norm : Integer → Integer
  | .fixnum n => .fixnum n
  | .bignum n => rb_big_norm n

/-! ## Arithmetic (`integer.rs`, `Add`/`Div`/`PartialOrd` impls) -/

/-- The imm×imm fast-path accumulator of `<Integer as Add>::add`
(`integer.rs` lines 577–587): checked signed 64-bit arithmetic on the
raw tagged words, `raw_a.checked_add(raw_b).and_then(|i| i.checked_sub(1))`. -/
def addFastAccum (a b : Int) : Option Int :=
  (checked_add (fixnumRaw a) (fixnumRaw b)).bind (fun i => checked_sub i 1)

/-- Whether `<Integer as Add>::add` on two immediates takes the
immediate fast path (re-encoding by bit manipulation, no foreign
call): exactly when the checked tagged-word arithmetic succeeds. -/
def addUsesFastPath (a b : Int) : Bool := (addFastAccum a b).isSome

/-- `<Integer as Add>::add` (`integer.rs` lines 572–600).  imm×imm:
checked accumulator on the tagged words, promotion to the foreign
big-integer addition on overflow; the mixed and big×_ cases promote
and delegate to `rb_big_plus`. -/
def Integer.add : Integer → Integer → Integer
  | .fixnum a, .fixnum b =>
    match addFastAccum a b with
    | some result => fromTaggedI64 result
    | none => rb_big_plus a b
  | .fixnum a, .bignum b => rb_big_plus a b
  | .bignum a, other => rb_big_plus a other.val

/-- Modelled from the spec: the foreign big-integer comparison
primitive `rb_big_cmp` — a foreign integer that is negative, zero or
positive as the first operand's value is less than, equal to or
greater than the second's. -/
def rb_big_cmp (x y : Int) : Int :=
  if x < y then -1 else if x = y then 0 else 1

/-- `<Integer as PartialOrd>::partial_cmp` (`integer.rs` lines
547–570).  imm×imm: compares the raw tagged words reinterpreted as
signed 64-bit integers (`(a.as_rb_value() as i64).partial_cmp(...)`);
the mixed cases promote and delegate to `rb_big_cmp`, then turn its
{negative, zero, positive} result into an `Ordering` (the source's
`.to_i8().unwrap().partial_cmp(&0)`). -/
def Integer.pcmp : Integer → Integer → Option Ordering
  | .fixnum a, .fixnum b => some (compare (fixnumRaw a) (fixnumRaw b))
  | .fixnum a, .bignum b => some (compare (rb_big_cmp a b) 0)
  | .bignum a, other => some (compare (rb_big_cmp a other.val) 0)

/-- Modelled from the spec: the foreign big-integer division primitive
`rb_big_div` — arbitrary-precision quotient (truncated), canonical
encoding. -/
def rb_big_div (a b : Int) : Integer := normEncode (Int.tdiv a b)

/-- `<Integer as Div>::div` (`integer.rs` lines 680–704).  imm×imm
performs the unguarded native signed division `raw_a / raw_b` on the
decoded values and re-encodes with `Integer::from_i64`; a native
division panics on a zero divisor and on the one overflowing case
(`i64::MIN / -1`), modelled as `none`.  The mixed and big×_ cases
delegate to the foreign `rb_big_div`. -/
def Integer.div : Integer → Integer → Option Integer
  | .fixnum a, .fixnum b =>
    if b = 0 then none
    else if a = i64Min ∧ b = -1 then none
    else some (integer_from_i64 (Int.tdiv a b))
  | .fixnum a, .bignum b => some (rb_big_div a b)
  | .bignum a, other => some (rb_big_div a other.val)

/-! ## Conversion protocol (`TryConvert` for `Integer`)

The foreign values that the integer conversion protocol distinguishes:
an integer (matched structurally by `Integer::from_value`), a
floating-point value, or some other object that may or may not expose
the implicit `to_int` coercion.  A floating-point value is represented
by the integer its conventional `to_int` coercion truncates to — its
fractional part plays no role in this protocol. -/

/-- A foreign tagged value, as far as `Integer::try_convert` inspects
it.  `obj none`: no `to_int` coercion; `obj (some (.ok n))`: coercion
returns the integer `n`; `obj (some (.error e))`: coercion raises. -/
inductive RValue where
  | int (i : Integer)
  | flt (toInt : Int)
  | obj (coerce : Option (Except RubyException Int))

/-- `Integer::from_value` (`integer.rs` lines 122–131): structural
match only — an immediate integer by its flag bit, a heap value by the
`T_BIGNUM` type tag; anything else (floats included) is `none`. -/
def Integer.from_value : RValue → Option Integer
  | .int i => some i
  | .flt _ => none
  | .obj _ => none

/-- Modelled from the spec: the foreign primitive `rb_to_int` (Ruby C
API, outside the repository) — returns integers unchanged, otherwise
invokes the value's implicit `to_int` coercion method: floating-point
values expose `to_int` by convention (truncation), a raising coercion
propagates its exception, and a value with no coercion raises a
`TypeError`. -/
def rb_to_int : RValue → Except RubyException Integer
  | .int i => .ok i
  | .flt t => .ok (normEncode t)
  | .obj none => .error (.typeError "no implicit conversion into Integer")
  | .obj (some (.error e)) => .error e
  | .obj (some (.ok n)) => .ok (normEncode n)

/-- `<Integer as TryConvert>::try_convert` (`integer.rs` lines
524–534): structural match first, otherwise the foreign `rb_to_int`
under the protect boundary. -/
def Integer.try_convert (val : RValue) : Except Error Integer :=
  match Integer.from_value val with
  | some i => .ok i
  | none => protect (rb_to_int val)

/-! ## Helper lemmas -/

/-- Unfolding of the fixnum-range test into its two inequalities. -/
theorem fixnumFits_iff {n : Int} :
    fixnumFits n = true ↔ fixnumMin ≤ n ∧ n ≤ fixnumMax := by
  simp [fixnumFits, Bool.and_eq_true, decide_eq_true_eq]

/-- The add fast-path accumulator in closed form: it succeeds exactly
when the sum lies in `[fixnumMin, fixnumMax - 1]` (the check is on the
tagged words `2·n + 1`, so the topmost representable sum
`fixnumMax = 2^62 − 1` overflows the accumulator and is rejected even
though it fits the immediate range). -/
theorem addFastAccum_eq (a b : Int) :
    addFastAccum a b =
      if fixnumMin ≤ a + b ∧ a + b ≤ fixnumMax - 1 then some (2 * (a + b) + 1)
      else none := by
  unfold addFastAccum checked_add checked_sub fixnumRaw
  by_cases h1 : i64Min ≤ 2 * a + 1 + (2 * b + 1) ∧ 2 * a + 1 + (2 * b + 1) ≤ i64Max
  · rw [if_pos h1, Option.some_bind]
    by_cases h2 : i64Min ≤ 2 * a + 1 + (2 * b + 1) - 1 ∧
        2 * a + 1 + (2 * b + 1) - 1 ≤ i64Max
    · rw [if_pos h2, if_pos ?_]
      · congr 1
        omega
      · simp only [i64Min, i64Max, fixnumMin, fixnumMax] at h1 h2 ⊢
        omega
    · rw [if_neg h2, if_neg ?_]
      simp only [i64Min, i64Max, fixnumMin, fixnumMax] at h1 h2 ⊢
      omega
  · rw [if_neg h1, Option.none_bind, if_neg ?_]
    simp only [i64Min, i64Max, fixnumMin, fixnumMax] at h1 ⊢
    omega

/-- Strict monotonicity of the tagged encoding `n ↦ 2·n + 1` under
`compare`. -/
theorem compare_fixnumRaw (a b : Int) :
    compare (fixnumRaw a) (fixnumRaw b) = compare a b := by
  unfold fixnumRaw
  rcases lt_trichotomy a b with h | h | h
  · rw [compare_lt_iff_lt.2 (by omega), compare_lt_iff_lt.2 h]
  · subst h
    rw [compare_eq_iff_eq.2 rfl, compare_eq_iff_eq.2 rfl]
  · rw [compare_gt_iff_gt.2 (by omega), compare_gt_iff_gt.2 h]

/-! ## Claim theorems: integers -/

/-- C2: for every native signed 64-bit integer `n`, constructing an
`Integer` with `integer_from_i64 n` and converting it back with
`to_i64` succeeds and returns exactly `n`. -/
theorem integer_from_i64_to_i64_roundtrip (n : Int)
    (hlo : i64Min ≤ n) (hhi : n ≤ i64Max) :
    (integer_from_i64 n).to_i64 = .ok n := by
  unfold integer_from_i64 from_i64_impl rb_ll2inum normEncode
  cases hf : fixnumFits n <;>
    simp [hf, Integer.to_i64, rbignum_to_i64, hlo, hhi]

/-- Witness for C2 at `n = 42` and at a value outside the immediate
range, `n = 2^62`. -/
theorem integer_from_i64_to_i64_roundtrip_wit :
    (i64Min ≤ (42 : Int) ∧ (42 : Int) ≤ i64Max ∧
      (integer_from_i64 42).to_i64 = .ok 42) ∧
    (i64Min ≤ (4611686018427387904 : Int) ∧
      (4611686018427387904 : Int) ≤ i64Max ∧
      (integer_from_i64 4611686018427387904).to_i64 = .ok 4611686018427387904) :=
  ⟨⟨by decide, by decide,
      integer_from_i64_to_i64_roundtrip 42 (by decide) (by decide)⟩,
    ⟨by decide, by decide,
      integer_from_i64_to_i64_roundtrip 4611686018427387904 (by decide)
        (by decide)⟩⟩

/-- C3: `integer_from_i64 (2^62)` (one past the immediate boundary) is
classified as the heap (Bignum) representation, and
`integer_from_i64 (2^62 − 1)` as the immediate (Fixnum)
representation. -/
theorem integer_from_i64_boundary :
    (integer_from_i64 4611686018427387904).isFixnum = false ∧
    integer_from_i64 4611686018427387904 = .bignum 4611686018427387904 ∧
    (integer_from_i64 4611686018427387903).isFixnum = true ∧
    integer_from_i64 4611686018427387903 = .fixnum 4611686018427387903 := by
  decide

/-- C4: `Integer::norm` is idempotent, and normalizing a heap
big-integer whose value fits the immediate range yields a value
classified as the immediate (Fixnum) representation. -/
theorem norm_idempotent_and_demotes :
    (∀ x : Integer, x.norm.norm = x.norm) ∧
    (∀ n : Int, fixnumFits n = true →
      (Integer.norm (.bignum n)).isFixnum = true) := by
  constructor
  · intro x
    cases x with
    | fixnum n => rfl
    | bignum n =>
      simp only [Integer.norm, rb_big_norm, normEncode]
      cases h : fixnumFits n <;> simp [h, Integer.norm, rb_big_norm, normEncode]
  · intro n h
    simp [Integer.norm, rb_big_norm, normEncode, h, Integer.isFixnum]

/-- Witness for C4 at the heap value `2^10` (fits the immediate range)
and at the heap value `2^62` (does not). -/
theorem norm_idempotent_and_demotes_wit :
    ((Integer.bignum 1024).norm.norm = (Integer.bignum 1024).norm) ∧
    ((Integer.bignum 4611686018427387904).norm.norm =
      (Integer.bignum 4611686018427387904).norm) ∧
    (fixnumFits 1024 = true ∧ (Integer.norm (.bignum 1024)).isFixnum = true) :=
  ⟨norm_idempotent_and_demotes.1 (.bignum 1024),
    norm_idempotent_and_demotes.1 (.bignum 4611686018427387904),
    by decide, norm_idempotent_and_demotes.2 1024 (by decide)⟩

/-- C1 counterexample: both operands are immediates and their
mathematical sum `2^62 − 1` fits the immediate range, yet `add` does
not take the immediate fast path — the overflow check is performed on
the tagged-word accumulator `(2·a+1) + (2·b+1)`, which overflows a
signed 64-bit word at sum `2^62 − 1`, so the promotion path runs
instead. -/
theorem add_fast_path_cex :
    fixnumFits 4611686018427387903 = true ∧
    fixnumFits 0 = true ∧
    fixnumFits (4611686018427387903 + 0) = true ∧
    addUsesFastPath 4611686018427387903 0 = false := by
  decide

/-- C1 (amended): for every pair of immediates, `add` takes the
immediate fast path exactly when the sum lies in
`[fixnumMin, fixnumMax − 1]` — every immediate-range sum except the
topmost value `fixnumMax = 2^62 − 1`, which (like every sum outside
the immediate range) takes the promotion path — and in every case the
result, converted back to a native integer, equals `a + b`. -/
theorem add_fixnum_correct (a b : Int)
    (ha : fixnumFits a = true) (hb : fixnumFits b = true) :
    (addUsesFastPath a b = true ↔
      (fixnumMin ≤ a + b ∧ a + b ≤ fixnumMax - 1)) ∧
    (Integer.add (.fixnum a) (.fixnum b)).to_i64 = .ok (a + b) := by
  have ha' := fixnumFits_iff.1 ha
  have hb' := fixnumFits_iff.1 hb
  constructor
  · rw [addUsesFastPath, addFastAccum_eq]
    by_cases h : fixnumMin ≤ a + b ∧ a + b ≤ fixnumMax - 1 <;> simp [h]
  · show (Integer.add (.fixnum a) (.fixnum b)).to_i64 = .ok (a + b)
    simp only [Integer.add, addFastAccum_eq]
    by_cases h : fixnumMin ≤ a + b ∧ a + b ≤ fixnumMax - 1
    · rw [if_pos h]
      simp only [fromTaggedI64, Integer.to_i64, Except.ok.injEq]
      omega
    · rw [if_neg h]
      simp only [rb_big_plus, normEncode]
      cases hf : fixnumFits (a + b) with
      | true => simp [Integer.to_i64]
      | false =>
        have hcond : i64Min ≤ a + b ∧ a + b ≤ i64Max := by
          simp only [i64Min, i64Max, fixnumMin, fixnumMax] at ha' hb' ⊢
          omega
        simp only [Bool.false_eq_true, if_false, Integer.to_i64, rbignum_to_i64,
          if_pos hcond]

/-- Witness for C1 (amended) at a fast-path pair `(1, 2)` and at the
promotion-path pair `(2^62 − 1, 0)`. -/
theorem add_fixnum_correct_wit :
    (fixnumFits 1 = true ∧ fixnumFits 2 = true ∧
      ((addUsesFastPath 1 2 = true ↔
          (fixnumMin ≤ (1 : Int) + 2 ∧ (1 : Int) + 2 ≤ fixnumMax - 1)) ∧
        (Integer.add (.fixnum 1) (.fixnum 2)).to_i64 = .ok (1 + 2))) ∧
    (fixnumFits 4611686018427387903 = true ∧ fixnumFits 0 = true ∧
      ((addUsesFastPath 4611686018427387903 0 = true ↔
          (fixnumMin ≤ (4611686018427387903 : Int) + 0 ∧
            (4611686018427387903 : Int) + 0 ≤ fixnumMax - 1)) ∧
        (Integer.add (.fixnum 4611686018427387903)
            (.fixnum 0)).to_i64 = .ok (4611686018427387903 + 0))) :=
  ⟨⟨by decide, by decide, add_fixnum_correct 1 2 (by decide) (by decide)⟩,
    ⟨by decide, by decide,
      add_fixnum_correct 4611686018427387903 0 (by decide) (by decide)⟩⟩

/-- C5: for immediates with a non-zero divisor the unguarded native
signed division in the fast path is safe: the quotient always fits a
signed 64-bit word (the one overflowing case `i64::MIN / −1` cannot
arise since `i64::MIN` is below the immediate range), so `div` reaches
the re-encoding of the native quotient and never the panic branch. -/
theorem div_fixnum_no_overflow (a b : Int)
    (ha : fixnumFits a = true) (hb : fixnumFits b = true) (hbz : b ≠ 0) :
    (i64Min ≤ Int.tdiv a b ∧ Int.tdiv a b ≤ i64Max) ∧
    Integer.div (.fixnum a) (.fixnum b) =
      some (integer_from_i64 (Int.tdiv a b)) := by
  have ha' := fixnumFits_iff.1 ha
  have hq : (Int.tdiv a b).natAbs ≤ a.natAbs := by
    rw [Int.natAbs_tdiv]
    exact Nat.div_le_self _ _
  have hrange : i64Min ≤ Int.tdiv a b ∧ Int.tdiv a b ≤ i64Max := by
    simp only [i64Min, i64Max, fixnumMin, fixnumMax] at ha' ⊢
    omega
  refine ⟨hrange, ?_⟩
  have hnm : ¬(a = i64Min ∧ b = -1) := by
    rintro ⟨h1, -⟩
    simp only [i64Min, fixnumMin, fixnumMax] at ha' h1
    omega
  simp [Integer.div, hbz, hnm]

/-- Witness for C5 at `(−7, 2)` (native truncated quotient `−3`). -/
theorem div_fixnum_no_overflow_wit :
    fixnumFits (-7) = true ∧ fixnumFits 2 = true ∧ (-7 : Int) ≠ 0 + 2 - 2 ∧
    ((i64Min ≤ Int.tdiv (-7) 2 ∧ Int.tdiv (-7) 2 ≤ i64Max) ∧
      Integer.div (.fixnum (-7)) (.fixnum 2) =
        some (integer_from_i64 (Int.tdiv (-7) 2))) :=
  ⟨by decide, by decide, by decide,
    div_fixnum_no_overflow (-7) 2 (by decide) (by decide) (by decide)⟩

/-- C9: for a pair of immediates with a zero divisor, the imm×imm
branch of `div` performs the unguarded native division, which panics
with a native division-by-zero (modelled as `none`) — the foreign
runtime's zero-divisor error machinery is never reached. -/
theorem div_fixnum_zero_divisor_panics (a : Int) :
    Integer.div (.fixnum a) (.fixnum 0) = none := rfl

/-- C10: on two immediates `partial_cmp` compares the raw tagged words
as signed integers, and since the encoding `n ↦ 2·n + 1` is strictly
monotone the result is `some` of exactly the numeric ordering of the
two represented integers — never `none`, with no foreign call. -/
theorem pcmp_fixnum_exact (a b : Int)
    (ha : fixnumFits a = true) (hb : fixnumFits b = true) :
    Integer.pcmp (.fixnum a) (.fixnum b) = some (compare a b) := by
  simp only [Integer.pcmp, compare_fixnumRaw]

/-- Witness for C10 at the pairs `(−3, 5)`, `(5, 5)` and `(7, −2)`. -/
theorem pcmp_fixnum_exact_wit :
    (fixnumFits (-3) = true ∧ fixnumFits 5 = true ∧
      Integer.pcmp (.fixnum (-3)) (.fixnum 5) = some (compare (-3) 5)) ∧
    (fixnumFits 5 = true ∧
      Integer.pcmp (.fixnum 5) (.fixnum 5) = some (compare 5 5)) ∧
    (fixnumFits 7 = true ∧ fixnumFits (-2) = true ∧
      Integer.pcmp (.fixnum 7) (.fixnum (-2)) = some (compare 7 (-2))) :=
  ⟨⟨by decide, by decide,
      pcmp_fixnum_exact (-3) 5 (by decide) (by decide)⟩,
    ⟨by decide, pcmp_fixnum_exact 5 5 (by decide) (by decide)⟩,
    ⟨by decide, by decide,
      pcmp_fixnum_exact 7 (-2) (by decide) (by decide)⟩⟩

/-- C6 counterexample: `try_convert` applied to a foreign
floating-point value does not fail with a conversion error — the
fallback `rb_to_int` invokes the float's conventional `to_int`
coercion (truncation), so the conversion succeeds (here: a float
truncating to `1`, such as `1.23`, converts to the immediate `1`). -/
theorem try_convert_float_cex :
    Integer.try_convert (.flt 1) = .ok (.fixnum 1) := rfl

/-- C6 (amended): `try_convert` applied to a foreign floating-point
value succeeds via the implicit `to_int` coercion, yielding the
truncated integer (it does not fail with a conversion error); applied
to a value whose implicit-conversion method itself raises, the foreign
exception is returned as a native `Err` through the protect boundary
rather than panicking or unwinding. -/
theorem try_convert_float_and_raising_coercion (t : Int) (e : RubyException) :
    Integer.try_convert (.flt t) = .ok (normEncode t) ∧
    Integer.try_convert (.obj (some (.error e))) = .error (.exception e) :=
  ⟨rfl, rfl⟩

/-! ## Arrays: copy-on-write sharing (`r_array.rs`)

The foreign array machinery (`rb_ary_subseq`, `rb_ary_replace`,
`rb_ary_shared_with_p`, the mutating `rb_ary_*` primitives) lives in
the Ruby runtime, outside the repository.  Modelled from the spec (§3
Array, §4.4, §9 design notes): an arena of backing buffers; an array
handle is a buffer id plus an is-shared flag; duplication hands out a
second handle onto the same buffer and flags both; a mutation of a
flagged handle first clones the buffer (copy-on-write) into a fresh
private one and then mutates that. -/

/-- Foreign array elements (tagged values), abstracted by identity. -/
abbrev Val := Int

/-- Modelled from the spec (§9): the foreign array heap as an arena of
backing buffers. -/
structure Heap where
  bufs : List (List Val)

/-- Modelled from the spec (§9): an array handle — a buffer id plus an
is-shared flag. -/
structure Ary where
  buf : Nat
  shared : Bool
  deriving DecidableEq

/-- A handle is valid when its buffer id points into the arena. -/
def Heap.valid (h : Heap) (a : Ary) : Prop := a.buf < h.bufs.length

/-- The elements an array handle currently denotes. -/
def Heap.read (h : Heap) (a : Ary) : List Val := h.bufs.getD a.buf []

/-- Allocate a fresh private buffer holding `content`. -/
def Heap.alloc (h : Heap) (content : List Val) : Heap × Ary :=
  (⟨h.bufs ++ [content]⟩, ⟨h.bufs.length, false⟩)

/-- `RArray::dup` (`r_array.rs` lines 476–479): `rb_ary_subseq(self,
0, LONG_MAX)`, a cheap copy-on-write duplicate.  Modelled from the
spec: the duplicate shares the original's buffer and both sides are
flagged shared; returns the pair (updated original handle, new
duplicate handle). -/
def Heap.dup (h : Heap) (a : Ary) : Heap × Ary × Ary :=
  (h, ⟨a.buf, true⟩, ⟨a.buf, true⟩)

/-- `RArray::replace` (`r_array.rs` lines 1281–1284):
`rb_ary_replace(self, from)` — `self` abandons its former contents and
comes to share `from`'s backing storage until either side is mutated.
Returns the pair (updated `self` handle, updated `from` handle). -/
def Heap.replace (h : Heap) (self src : Ary) : Heap × Ary × Ary :=
  (h, ⟨src.buf, true⟩, ⟨src.buf, true⟩)

/-- `RArray::is_shared` (`r_array.rs` lines 1247–1255), a thin wrapper
over the foreign `rb_ary_shared_with_p`: do the two handles currently
share the same backing buffer? -/
def Ary.is_shared (a b : Ary) : Bool := a.buf == b.buf

/-- Modelled from the spec (§4.4, §9): the copy-on-write discipline
every mutating foreign array primitive applies before touching
storage: a shared handle first receives a private clone of its buffer,
an unshared one is mutated in place.  `f` is the list-level effect of
the particular primitive (append one element for `rb_ary_push`, and so
on for unshift, delete, clear, resize, reverse, rotate, sort, concat,
store). -/
def Heap.mutate (h : Heap) (a : Ary) (f : List Val → List Val) : Heap × Ary :=
  if a.shared then h.alloc (f (h.read a))
  else (⟨h.bufs.set a.buf (f (h.read a))⟩, a)

/-- `RArray::push` (`r_array.rs` lines 680–686): `rb_ary_push` appends
one element under the copy-on-write discipline. -/
def Heap.push (h : Heap) (a : Ary) (v : Val) : Heap × Ary :=
  h.mutate a (fun l => l ++ [v])

/-! ## Arrays: batch construction from a native iterator -/

/-- The fixed size of the native batch buffer in
`Ruby::ary_try_from_iter` (`r_array.rs` line 221: `[qnil; 128]`). -/
def batchSize : Nat := 128

/-- One iteration of the buffering loop of `ary_try_from_iter`
(`r_array.rs` lines 223–230): write the element into the buffer; once
the buffer is full, flush it to the foreign append primitive
(`RArray::cat`, a foreign call) and reset the write index.  State:
(array contents so far, live buffer prefix, foreign append calls so
far). -/
def batchStep (st : List Val × List Val × Nat) (v : Val) :
    List Val × List Val × Nat :=
  let buf := st.2.1 ++ [v]
  if batchSize ≤ buf.length then (st.1 ++ buf, [], st.2.2 + 1)
  else (st.1, buf, st.2.2)

/-- The element loop of `ary_try_from_iter`: short-circuits with the
first native error (`v?`), otherwise buffers and flushes; after the
loop the partial buffer `buffer[..i]` is flushed with one final
foreign append call (`r_array.rs` line 231). -/
def tryFromIterLoop {E : Type} :
    List (Except E Val) → List Val × List Val × Nat →
      Except E (List Val × Nat)
  | [], st => .ok (st.1 ++ st.2.1, st.2.2 + 1)
  | .error e :: _, _ => .error e
  | .ok v :: rest, st => tryFromIterLoop rest (batchStep st v)

/-- `Ruby::ary_try_from_iter` (`r_array.rs` lines 209–233): buffers
elements of a fallible native iterator in a fixed 128-slot native
buffer, flushing full batches to the foreign append primitive, plus a
final flush of the partial batch.  Returns the constructed array's
contents together with the number of foreign append calls performed.
(The capacity pre-allocation chosen from the iterator's size hint only
reserves storage and does not affect contents.) -/
def ary_try_from_iter {E : Type} (l : List (Except E Val)) :
    Except E (List Val × Nat) :=
  tryFromIterLoop l ([], [], 0)

/-- `Ruby::ary_from_iter` (`r_array.rs` lines 166–173): the infallible
construction wraps every element in `Ok` and unwraps the
`ary_try_from_iter` result (the error type is uninhabited). -/
def ary_from_iter (l : List Val) : List Val × Nat :=
  match ary_try_from_iter (E := Empty) (l.map .ok) with
  | .ok r => r
  | .error e => e.elim

/-- Closed form of the batch-construction loop on an error-free
iterator: all elements end up appended in order, and the number of
foreign append calls is one flush per full batch plus the final
partial flush. -/
theorem tryFromIterLoop_ok {E : Type} (l : List Val) :
    ∀ (ary buf : List Val) (fl : Nat), buf.length < batchSize →
      tryFromIterLoop (E := E) (l.map .ok) (ary, buf, fl) =
        .ok (ary ++ buf ++ l, fl + (buf.length + l.length) / batchSize + 1) := by
  induction l with
  | nil =>
    intro ary buf fl h
    simp only [List.map_nil, tryFromIterLoop, List.append_nil, List.length_nil,
      Nat.add_zero]
    rw [Nat.div_eq_of_lt h]
  | cons v rest ih =>
    intro ary buf fl h
    simp only [List.map_cons, tryFromIterLoop, batchStep]
    by_cases hfull : batchSize ≤ (buf ++ [v]).length
    · rw [if_pos hfull, ih _ _ _ (by simp [batchSize])]
      have hlen : buf.length + 1 = batchSize := by
        simp only [List.length_append, List.length_cons, List.length_nil,
          batchSize] at hfull h ⊢
        omega
      congr 2
      · simp
      · simp only [List.length_nil, List.length_cons, batchSize] at hlen ⊢
        omega
    · rw [if_neg hfull, ih _ _ _ (by simpa using hfull)]
      congr 2
      · simp
      · simp only [List.length_append, List.length_cons, List.length_nil,
          batchSize]
        omega

/-- C8: constructing a foreign array from a native iterator of 300
elements — more than the fixed 128-slot batch buffer holds — yields an
array whose length is 300 and whose element order exactly matches the
iterator's sequence; three foreign append calls occur (two full-batch
flushes of 128 plus the final partial flush of 44), so at least two
flushes to the foreign append primitive happen. -/
theorem ary_from_iter_300 (l : List Val) (h : l.length = 300) :
    (ary_from_iter l).1 = l ∧ (ary_from_iter l).1.length = 300 ∧
    (ary_from_iter l).2 = 3 ∧ 2 ≤ (ary_from_iter l).2 := by
  have hloop := tryFromIterLoop_ok (E := Empty) l [] [] 0 (by simp [batchSize])
  have hfi : ary_from_iter l = (l, 3) := by
    unfold ary_from_iter ary_try_from_iter
    rw [hloop]
    simp [h, batchSize]
  rw [hfi]
  exact ⟨rfl, h, rfl, by norm_num⟩

/-- Witness for C8 on the iterator `0, 1, …, 299`. -/
theorem ary_from_iter_300_wit :
    ((List.range 300).map Int.ofNat).length = 300 ∧
    ((ary_from_iter ((List.range 300).map Int.ofNat)).1 =
        (List.range 300).map Int.ofNat ∧
      (ary_from_iter ((List.range 300).map Int.ofNat)).1.length = 300 ∧
      (ary_from_iter ((List.range 300).map Int.ofNat)).2 = 3 ∧
      2 ≤ (ary_from_iter ((List.range 300).map Int.ofNat)).2) :=
  ⟨by simp, ary_from_iter_300 ((List.range 300).map Int.ofNat) (by simp)⟩

/-- C7: duplicating array `A` into `B` — via `dup` or via `replace` —
leaves `is_shared` true immediately afterwards; after any mutation of
`B` (any list-level effect `f` applied through the copy-on-write
discipline), `is_shared` is false and `A`'s elements are unchanged
from before the mutation. -/
theorem cow_dup_replace (h : Heap) (a c : Ary) (f : List Val → List Val)
    (hv : h.valid a) :
    (Ary.is_shared ((h.dup a).2.1) ((h.dup a).2.2) = true ∧
      Ary.is_shared ((h.dup a).2.1)
          (((h.dup a).1.mutate ((h.dup a).2.2) f).2) = false ∧
      (((h.dup a).1.mutate ((h.dup a).2.2) f).1).read ((h.dup a).2.1) =
        ((h.dup a).1).read ((h.dup a).2.1)) ∧
    (Ary.is_shared ((h.replace c a).2.2) ((h.replace c a).2.1) = true ∧
      Ary.is_shared ((h.replace c a).2.2)
          (((h.replace c a).1.mutate ((h.replace c a).2.1) f).2) = false ∧
      (((h.replace c a).1.mutate ((h.replace c a).2.1) f).1).read
          ((h.replace c a).2.2) =
        ((h.replace c a).1).read ((h.replace c a).2.2)) := by
  have hne : (a.buf == h.bufs.length) = false := by
    simp only [beq_eq_false_iff_ne, ne_eq]
    exact Nat.ne_of_lt hv
  refine ⟨⟨?_, ?_, ?_⟩, ?_, ?_, ?_⟩ <;>
    simp only [Heap.dup, Heap.replace, Heap.mutate, Heap.alloc, Heap.read,
      Ary.is_shared, if_true, beq_self_eq_true, hne]
  · exact List.getD_append _ _ _ _ hv
  · exact List.getD_append _ _ _ _ hv

/-- Witness for C7: a two-buffer heap, `A` the three-element array in
buffer 0, `C` the empty array in buffer 1, mutation = push of `4`. -/
theorem cow_dup_replace_wit :
    Heap.valid ⟨[[1, 2, 3], []]⟩ ⟨0, false⟩ ∧
    ((Ary.is_shared ((Heap.dup ⟨[[1, 2, 3], []]⟩ ⟨0, false⟩).2.1)
          ((Heap.dup ⟨[[1, 2, 3], []]⟩ ⟨0, false⟩).2.2) = true ∧
        Ary.is_shared ((Heap.dup ⟨[[1, 2, 3], []]⟩ ⟨0, false⟩).2.1)
            (((Heap.dup ⟨[[1, 2, 3], []]⟩ ⟨0, false⟩).1.mutate
                ((Heap.dup ⟨[[1, 2, 3], []]⟩ ⟨0, false⟩).2.2)
                (fun l => l ++ [4])).2) = false ∧
        (((Heap.dup ⟨[[1, 2, 3], []]⟩ ⟨0, false⟩).1.mutate
              ((Heap.dup ⟨[[1, 2, 3], []]⟩ ⟨0, false⟩).2.2)
              (fun l => l ++ [4])).1).read
            ((Heap.dup ⟨[[1, 2, 3], []]⟩ ⟨0, false⟩).2.1) =
          ((Heap.dup ⟨[[1, 2, 3], []]⟩ ⟨0, false⟩).1).read
            ((Heap.dup ⟨[[1, 2, 3], []]⟩ ⟨0, false⟩).2.1)) ∧
      (Ary.is_shared ((Heap.replace ⟨[[1, 2, 3], []]⟩ ⟨1, false⟩ ⟨0, false⟩).2.2)
            ((Heap.replace ⟨[[1, 2, 3], []]⟩ ⟨1, false⟩ ⟨0, false⟩).2.1) = true ∧
        Ary.is_shared ((Heap.replace ⟨[[1, 2, 3], []]⟩ ⟨1, false⟩ ⟨0, false⟩).2.2)
            (((Heap.replace ⟨[[1, 2, 3], []]⟩ ⟨1, false⟩ ⟨0, false⟩).1.mutate
                ((Heap.replace ⟨[[1, 2, 3], []]⟩ ⟨1, false⟩ ⟨0, false⟩).2.1)
                (fun l => l ++ [4])).2) = false ∧
        (((Heap.replace ⟨[[1, 2, 3], []]⟩ ⟨1, false⟩ ⟨0, false⟩).1.mutate
              ((Heap.replace ⟨[[1, 2, 3], []]⟩ ⟨1, false⟩ ⟨0, false⟩).2.1)
              (fun l => l ++ [4])).1).read
            ((Heap.replace ⟨[[1, 2, 3], []]⟩ ⟨1, false⟩ ⟨0, false⟩).2.2) =
          ((Heap.replace ⟨[[1, 2, 3], []]⟩ ⟨1, false⟩ ⟨0, false⟩).1).read
            ((Heap.replace ⟨[[1, 2, 3], []]⟩ ⟨1, false⟩ ⟨0, false⟩).2.2))) :=
  ⟨by simp [Heap.valid],
    cow_dup_replace ⟨[[1, 2, 3], []]⟩ ⟨0, false⟩ ⟨1, false⟩
      (fun l => l ++ [4]) (by simp [Heap.valid])⟩
